import Mathlib

/-!
Verification of the MC Protocol client (TypeScript, `src/MCProtocol.ts`)
against its natural-language specification.

Bytes are modelled as `Nat` entries of a `List Nat`; Node `Buffer` writes
that throw `RangeError` on out-of-range values are modelled as `Except`
failures.  The asynchronous engine (pending-request map, timers, socket
callbacks) is modelled as an explicit event-step relation on an engine
state, with every `resolve`/`reject` invocation recorded.
-/

/-! ### Errors (`MCProtocolError` variants thrown by the source) -/

inductive MCError where
  | rangeError : MCError
  | invalidDevice (device : List Char) : MCError
  | unknownDeviceType (deviceType : List Char) : MCError
  | invalidSubheader (code : Nat) : MCError
  | plcError (code : Nat) : MCError
  | invalidRegisterFormat (reg : List Char) : MCError
deriving DecidableEq

/-! ### Buffer primitives (Node `Buffer` read/write, little- and big-endian) -/

/-- Little-endian byte string of `n`, `width` bytes (`Buffer.writeUIntLE`). -/
def leBytes : Nat → Nat → List Nat
  | 0, _ => []
  | w + 1, n => (n % 256) :: leBytes w (n / 256)

/-- Decode a little-endian byte list back to a number. -/
def ofLEBytes : List Nat → Nat
  | [] => 0
  | b :: bs => b + 256 * ofLEBytes bs

/-- `Buffer.writeUIntLE(n, 0, width)`: throws `RangeError` when `n` does not
fit in `width` bytes. -/
def writeUIntLEBytes (width n : Nat) : Except MCError (List Nat) :=
  if n < 256 ^ width then .ok (leBytes width n) else .error .rangeError

/-- `Buffer.readUInt16LE(off)`: throws when fewer than two bytes remain. -/
def bufReadUInt16LE (b : List Nat) (off : Nat) : Except MCError Nat :=
  if off + 2 ≤ b.length then .ok (b.getD off 0 + 256 * b.getD (off + 1) 0)
  else .error .rangeError

/-- `Buffer.readUInt16BE(off)`. -/
def bufReadUInt16BE (b : List Nat) (off : Nat) : Except MCError Nat :=
  if off + 2 ≤ b.length then .ok (b.getD off 0 * 256 + b.getD (off + 1) 0)
  else .error .rangeError

/-- Reinterpret an unsigned 16-bit value as a signed one (`readInt16LE`). -/
def toInt16 (n : Nat) : Int :=
  if n < 32768 then (n : Int) else (n : Int) - 65536

/-- `Buffer.readInt16LE(i)` on the in-bounds pair at `i`, `i+1`. -/
def readInt16At (b : List Nat) (i : Nat) : Int :=
  toInt16 (b.getD i 0 + 256 * b.getD (i + 1) 0)

/-! ### `encodeValue` (source lines 352-389) -/

inductive EncMode where
  | byte : EncMode
  | short : EncMode
  | long : EncMode
deriving DecidableEq

/-- `encodeValue(value, mode, isSigned)`: allocates a 1/2/4-byte buffer and
writes `value` with the matching signed/unsigned LE write, which throws
`RangeError` out of range.  Signed writes store two's complement. -/
def encodeValue (value : Int) (mode : EncMode) (isSigned : Bool) :
    Except MCError (List Nat) :=
  match mode with
  | .byte =>
    if isSigned then
      if -128 ≤ value ∧ value ≤ 127 then .ok [(value.emod 256).toNat]
      else .error .rangeError
    else
      if 0 ≤ value ∧ value ≤ 255 then .ok [value.toNat]
      else .error .rangeError
  | .short =>
    if isSigned then
      if -32768 ≤ value ∧ value ≤ 32767 then
        .ok (leBytes 2 (value.emod 65536).toNat)
      else .error .rangeError
    else
      if 0 ≤ value ∧ value ≤ 65535 then .ok (leBytes 2 value.toNat)
      else .error .rangeError
  | .long =>
    if isSigned then
      if -2147483648 ≤ value ∧ value ≤ 2147483647 then
        .ok (leBytes 4 (value.emod 4294967296).toNat)
      else .error .rangeError
    else
      if 0 ≤ value ∧ value ≤ 4294967295 then .ok (leBytes 4 value.toNat)
      else .error .rangeError

/-! ### Device Address Codec (source lines 391-438) -/

inductive PlcType where
  | Q : PlcType
  | iQR : PlcType
  | iQL : PlcType
  | L : PlcType
  | QnA : PlcType
deriving DecidableEq

/-- `c` matches JavaScript `\d`, i.e. is one of `0`-`9` (codes 48-57). -/
def isDigitC (c : Char) : Bool := 48 ≤ c.toNat && c.toNat ≤ 57

/-- `c` is an ASCII uppercase letter `A`-`Z` (codes 65-90). -/
def isUpperC (c : Char) : Bool := 65 ≤ c.toNat && c.toNat ≤ 90

/-- `c` is an ASCII lowercase letter `a`-`z` (codes 97-122). -/
def isLowerC (c : Char) : Bool := 97 ≤ c.toNat && c.toNat ≤ 122

/-- `device.match(/\D+/)`: the first maximal run of non-digit characters. -/
def firstNonDigitRun (device : List Char) : Option (List Char) :=
  let run := (device.dropWhile isDigitC).takeWhile (fun c => !(isDigitC c))
  if run = [] then none else some run

/-- The static `DEVICE_CODES` table. -/
def deviceCodes : List (List Char × Nat) :=
  [(['D'], 0xa8), (['R'], 0xaf), (['Z', 'R'], 0xb0), (['M'], 0x90),
   (['X'], 0x9c), (['Y'], 0x9d), (['B'], 0xa0), (['F'], 0x93),
   (['V'], 0x94), (['S'], 0x98), (['S', 'S'], 0xc9), (['S', 'C'], 0xc6),
   (['S', 'B'], 0xa1), (['D', 'X'], 0xa2), (['D', 'Y'], 0xa3),
   (['T'], 0xc2), (['S', 'T'], 0xc7), (['C'], 0xc5), (['T', 'C'], 0xc0),
   (['T', 'S'], 0xc1), (['T', 'N'], 0xc2), (['C', 'N'], 0xc5),
   (['C', 'S'], 0xc4), (['C', 'C'], 0xc3), (['W'], 0xb4),
   (['S', 'W'], 0xb5), (['R', 'D'], 0x2c), (['S', 'D'], 0xa9),
   (['Z'], 0xcc)]

/-- `getDeviceBase`: hex-addressed device types use base 16, the rest base 10. -/
def getDeviceBase (deviceType : List Char) : Nat :=
  let hexDevices : List (List Char) :=
    [['X'], ['Y'], ['B'], ['W'], ['S', 'B'], ['S', 'W'], ['D', 'X'],
     ['D', 'Y'], ['Z', 'R']]
  if hexDevices.contains deviceType then 16 else 10

/-- Little-endian decimal digits of `n` (the characters of
`address.toString()`, least significant first), fuelled structurally. -/
def decDigitsAux : Nat → Nat → List Nat
  | 0, _ => []
  | _ + 1, 0 => []
  | fuel + 1, n + 1 => ((n + 1) % 10) :: decDigitsAux fuel ((n + 1) / 10)

/-- Little-endian decimal digits of `n`. -/
def decDigits (n : Nat) : List Nat := decDigitsAux n n

/-- Value of a little-endian digit list in base `b`. -/
def ofDigitsBase (b : Nat) : List Nat → Nat
  | [] => 0
  | d :: ds => d + b * ofDigitsBase b ds

/-- `parseInt(address.toString(), base)`: the decimal digit string of
`address` re-read in base `base` (every decimal digit is a valid base-16
digit, so the parse always consumes the whole string). -/
def reparse (base n : Nat) : Nat := ofDigitsBase base (decDigits n)

/-- `makeDeviceData(device, address)` (source lines 391-433): extract the
device-type letters, look up the device code, re-parse the offset in the
device's base, then emit 4+2 bytes (iQ-R) or 3+1 bytes (other series). -/
def makeDeviceData (pt : PlcType) (device : List Char) (address : Nat) :
    Except MCError (List Nat) :=
  match firstNonDigitRun device with
  | none => .error (.invalidDevice device)
  | some deviceType =>
    match List.lookup deviceType deviceCodes with
    | none => .error (.unknownDeviceType deviceType)
    | some deviceCode =>
      let deviceBase := getDeviceBase deviceType
      let deviceNum := reparse deviceBase address
      if pt = .iQR then do
        let numBytes ← writeUIntLEBytes 4 deviceNum
        let codeBytes ← writeUIntLEBytes 2 deviceCode
        pure (numBytes ++ codeBytes)
      else do
        let numBytes ← writeUIntLEBytes 3 deviceNum
        let codeBytes ← writeUIntLEBytes 1 deviceCode
        pure (numBytes ++ codeBytes)

/-! ### Frame Builder (source lines 228-350) -/

/-- Body of a 4E read frame: command `0x0401`, subcommand (`0x0002` for
iQ-R, else `0x0000`), device data, 2-byte count. -/
def readRequestData (pt : PlcType) (device : List Char) (address : Nat)
    (count : Nat) : Except MCError (List Nat) := do
  let cmd ← encodeValue 0x0401 .short false
  let sub ← encodeValue (if pt = .iQR then 0x0002 else 0x0000) .short false
  let dev ← makeDeviceData pt device address
  let cnt ← encodeValue (count : Int) .short false
  pure (cmd ++ sub ++ dev ++ cnt)

/-- Body of a 4E write frame: command `0x1401`, subcommand, device data,
2-byte value count, then each value as a signed LE 16-bit word. -/
def writeRequestData (pt : PlcType) (device : List Char) (address : Nat)
    (values : List Int) : Except MCError (List Nat) := do
  let cmd ← encodeValue 0x1401 .short false
  let sub ← encodeValue (if pt = .iQR then 0x0002 else 0x0000) .short false
  let dev ← makeDeviceData pt device address
  let cnt ← encodeValue (values.length : Int) .short false
  let vals ← values.mapM (fun v => encodeValue v .short true)
  pure (cmd ++ sub ++ dev ++ cnt ++ vals.flatten)

/-- The 4E frame envelope, duplicated verbatim in `create4EReadFrame`
(source lines 257-279) and `create4EWriteFrame` (source lines 325-347):
subheader `0x5400` written big-endian, serial, reserved, network, pc,
destination module I/O and station fields, the 2-byte length field
`wordSize (2) + requestData.length`, the 2-byte timer value 4, then the
body. -/
def frame4EEnvelope (requestData : List Nat) : Except MCError (List Nat) := do
  let serial ← encodeValue 0x0000 .short false
  let reserved ← encodeValue 0 .short false
  let network ← encodeValue 0 .byte false
  let pc ← encodeValue 0xff .byte false
  let destModuleIO ← encodeValue 0x03ff .short false
  let destModuleSta ← encodeValue 0x00 .byte false
  let lenField ← encodeValue ((2 : Int) + requestData.length) .short false
  let timer ← encodeValue 4 .short false
  pure ([0x54, 0x00] ++ serial ++ reserved ++ network ++ pc ++ destModuleIO ++
    destModuleSta ++ lenField ++ timer ++ requestData)

/-- `create4EReadFrame`: the 4E envelope around the read body. -/
def create4EReadFrame (pt : PlcType) (device : List Char) (address : Nat)
    (count : Nat) : Except MCError (List Nat) := do
  let requestData ← readRequestData pt device address count
  frame4EEnvelope requestData

/-- `create4EWriteFrame`: the 4E envelope around the write body. -/
def create4EWriteFrame (pt : PlcType) (device : List Char) (address : Nat)
    (values : List Int) : Except MCError (List Nat) := do
  let requestData ← writeRequestData pt device address values
  frame4EEnvelope requestData

/-- The embedded 2-byte little-endian length field at offset 11 of a frame. -/
def lenFieldOf (frame : List Nat) : Nat :=
  frame.getD 11 0 + 256 * frame.getD 12 0

/-! ### Stream Reassembler (`handleResponse`, source lines 470-490) -/

/-- The inbound data-length field: `responseBuffer.readUInt16LE(11)`. -/
def dataLenOf (buf : List Nat) : Nat := buf.getD 11 0 + 256 * buf.getD 12 0

/-- One run of the `while` loop of `handleResponse`, fuelled structurally
(the loop consumes at least 13 bytes per iteration, so fuel
`buf.length` is always enough): while at least 13 bytes are buffered,
read the data-length field at offset 11; if `13 + dataLength` bytes are
available, split off that prefix as a complete frame and continue,
otherwise stop with the buffer unchanged. -/
def extractFramesAux : Nat → List Nat → List Nat × List (List Nat)
  | 0, buf => (buf, [])
  | fuel + 1, buf =>
    if 13 ≤ buf.length then
      let totalLength := 13 + dataLenOf buf
      if totalLength ≤ buf.length then
        let rest := extractFramesAux fuel (buf.drop totalLength)
        (rest.1, buf.take totalLength :: rest.2)
      else (buf, [])
    else (buf, [])

/-- Frames extracted from a buffer, plus the remaining buffered bytes. -/
def extractFrames (buf : List Nat) : List Nat × List (List Nat) :=
  extractFramesAux buf.length buf

/-- `handleResponse(data)`: append the chunk to the buffer, then extract
every complete frame.  Returns the new buffer and the extracted frames in
order. -/
def handleResponse (buf data : List Nat) : List Nat × List (List Nat) :=
  extractFrames (buf ++ data)

/-- Feed one chunk to the reassembler, accumulating extracted frames. -/
def feed (st : List Nat × List (List Nat)) (chunk : List Nat) :
    List Nat × List (List Nat) :=
  let r := handleResponse st.1 chunk
  (r.1, st.2 ++ r.2)

/-- Feed a sequence of chunks in order. -/
def feedAll (st : List Nat × List (List Nat)) (chunks : List (List Nat)) :
    List Nat × List (List Nat) :=
  chunks.foldl feed st

/-- A byte sequence is one complete frame exactly when its length is the
fixed 13-byte header plus its own embedded data length. -/
def CompleteFrame (f : List Nat) : Prop := 13 + dataLenOf f = f.length

/-! ### Response Validator/Decoder (source lines 514-558) -/

/-- The big-endian subheader at offset 0. -/
def subheaderOf (b : List Nat) : Nat := b.getD 0 0 * 256 + b.getD 1 0

/-- The little-endian PLC status code at offset 13. -/
def statusOf (b : List Nat) : Nat := b.getD 13 0 + 256 * b.getD 14 0

/-- `validateResponse` (source lines 514-539): check the `0xd400` response
subheader; read (and ignore) the length field at offset 9; then, only when
the frame is at least 15 bytes long, read the status code at offset 13 and
fail with a PLC error when it is non-zero. -/
def validateResponse (response : List Nat) : Except MCError Unit :=
  match bufReadUInt16BE response 0 with
  | .error e => .error e
  | .ok subheader =>
    if subheader ≠ 0xd400 then .error (.invalidSubheader subheader)
    else
      match bufReadUInt16LE response 9 with
      | .error e => .error e
      | .ok _dataLength =>
        if 15 ≤ response.length then
          match bufReadUInt16LE response 13 with
          | .error e => .error e
          | .ok errorCode =>
            if errorCode ≠ 0 then .error (.plcError errorCode) else .ok ()
        else .ok ()

/-- The value-collection loop of `parseReadResponse`, fuelled structurally:
`for (i = dataStart; i < len; i += 2) if (i + 1 < len) push readInt16LE(i)`.
A final unpaired byte fails the `i + 1 < len` guard and is skipped. -/
def collectValuesAux (response : List Nat) : Nat → Nat → List Int
  | 0, _ => []
  | fuel + 1, i =>
    if i < response.length then
      (if i + 1 < response.length then [readInt16At response i] else []) ++
        collectValuesAux response fuel (i + 2)
    else []

/-- Values decoded starting at offset `i` (fuel `response.length` covers
every iteration of the loop). -/
def collectValues (response : List Nat) (i : Nat) : List Int :=
  collectValuesAux response response.length i

/-- `parseReadResponse` (source lines 541-558): validate, then decode every
signed 16-bit LE pair from the fixed payload-start offset 15. -/
def parseReadResponse (response : List Nat) : Except MCError (List Int) :=
  match validateResponse response with
  | .error e => .error e
  | .ok _ => .ok (collectValues response 15)

/-! ### `plcRead` textual register parsing (source lines 572-593) -/

/-- `reg.match(/^([A-Z]+)(\d+)$/)`: one or more uppercase letters followed
by one or more decimal digits, spanning the whole string.  Greedy
`takeWhile` is equivalent to the regex because letters and digits are
disjoint character classes. -/
def matchRegister (reg : List Char) : Option (List Char × List Char) :=
  let letters := reg.takeWhile isUpperC
  let rest := reg.dropWhile isUpperC
  if letters ≠ [] ∧ rest ≠ [] ∧ rest.all isDigitC then some (letters, rest)
  else none

/-- `parseInt(digits)` in base 10 for a digit string. -/
def digitsVal (ds : List Char) : Nat :=
  ds.foldl (fun acc c => acc * 10 + (c.toNat - '0'.toNat)) 0

/-- The address-mapping stage of `plcRead`: parse every textual register
name before any frame is built or sent; the first malformed name aborts
the whole call with an invalid-format error. -/
def plcReadParse : List (List Char) → Except MCError (List (List Char × Nat))
  | [] => .ok []
  | r :: rs =>
    match matchRegister r with
    | none => .error (.invalidRegisterFormat r)
    | some (d, ds) =>
      match plcReadParse rs with
      | .error e => .error e
      | .ok tl => .ok ((d, digitsVal ds) :: tl)

/-- Modelled from the spec: the textual register-name format the spec
§6 claims `plcRead` accepts, `[A-Za-z]+[0-9]+` with a parameterised letter
class — one or more letters satisfying `letterP`, then one or more decimal
digits, spanning the whole name. -/
def specAddressFormat (letterP : Char → Bool) (s : List Char) : Prop :=
  ∃ d ds, s = d ++ ds ∧ d ≠ [] ∧ ds ≠ [] ∧
    (∀ c ∈ d, letterP c = true) ∧ (∀ c ∈ ds, isDigitC c = true)

/-! ### Engine event machine (connect / sendRequest / processResponse /
cleanup, source lines 99-147, 440-468, 492-512, 560-569)

Each `resolve`/`reject` invocation on a pending request's promise is
recorded as a `CallRec`; a JavaScript promise delivers only the first such
settlement to its caller. -/

/-- Which code path invoked `resolve`/`reject` for a request. -/
inductive Outcome where
  | timeout : Outcome
  | response : Outcome
  | connectionClosed : Outcome
  | writeError : Outcome
deriving DecidableEq

/-- One recorded `resolve`/`reject` invocation: the request id, the path
that made it, and whether the request was still in the pending map at the
moment of the call. -/
structure CallRec where
  id : Nat
  src : Outcome
  wasPending : Bool
deriving DecidableEq

/-- Engine state: connection flag, socket generation counter, request
counter, pending-request ids in insertion (FIFO) order, armed timeout
timers, unfired `socket.write` callbacks, the inbound buffer, and the
chronological list of settle calls. -/
structure EngineState where
  connected : Bool
  socketGen : Nat
  counter : Nat
  pending : List Nat
  timers : List Nat
  writes : List Nat
  buffer : List Nat
  calls : List CallRec
deriving DecidableEq

/-- Fresh engine: not connected, nothing pending, empty buffer. -/
def initState : EngineState :=
  { connected := false, socketGen := 0, counter := 0, pending := [],
    timers := [], writes := [], buffer := [], calls := [] }

/-- Events delivered by the Node event loop: a `connect()` call, the socket
`connect` callback, a `sendRequest`, a request timeout firing, a `data`
chunk, a `socket.write` callback (with or without an error), and the
socket `close` event. -/
inductive Event where
  | connectCall : Event
  | connectOk : Event
  | sendReq : Event
  | timerFire (id : Nat) : Event
  | dataChunk (bytes : List Nat) : Event
  | writeCbOk (id : Nat) : Event
  | writeCbErr (id : Nat) : Event
  | close : Event

/-- `connect()` (source lines 99-104): when already connected it resolves
immediately (`true`) and changes nothing; otherwise a new socket is
created. -/
def connectCall (s : EngineState) : EngineState × Bool :=
  if s.connected then (s, true)
  else ({ s with socketGen := s.socketGen + 1 }, false)

/-- `processResponse(frame)` (source lines 492-512): with no pending
request the frame is discarded; otherwise the oldest pending entry is
removed, its timer cleared, and its promise settled (resolved on a valid
frame, rejected on a validation error — either way exactly one settle
call). -/
def processOne (s : EngineState) (_frame : List Nat) : EngineState :=
  match s.pending with
  | [] => s
  | id :: rest =>
    { s with pending := rest, timers := s.timers.erase id,
             calls := s.calls ++ [⟨id, .response, (id :: rest).contains id⟩] }

/-- One engine step per event, mirroring the corresponding handler. -/
def stepE (s : EngineState) (e : Event) : EngineState :=
  match e with
  | .connectCall => (connectCall s).1
  | .connectOk => { s with connected := true }
  | .sendReq =>
    if s.connected then
      let id := s.counter + 1
      { s with counter := id, pending := s.pending ++ [id],
               timers := id :: s.timers, writes := id :: s.writes }
    else s
  | .timerFire id =>
    if s.timers.contains id then
      { s with timers := s.timers.erase id, pending := s.pending.erase id,
               calls := s.calls ++ [⟨id, .timeout, s.pending.contains id⟩] }
    else s
  | .dataChunk bytes =>
    let r := extractFrames (s.buffer ++ bytes)
    r.2.foldl processOne { s with buffer := r.1 }
  | .writeCbOk id =>
    if s.writes.contains id then { s with writes := s.writes.erase id } else s
  | .writeCbErr id =>
    if s.writes.contains id then
      { s with writes := s.writes.erase id, timers := s.timers.erase id,
               pending := s.pending.erase id,
               calls := s.calls ++ [⟨id, .writeError, s.pending.contains id⟩] }
    else s
  | .close =>
    { s with connected := false, buffer := [],
             timers := s.timers.filter (fun t => !(s.pending.contains t)),
             calls := s.calls ++
               s.pending.map (fun i => ⟨i, .connectionClosed, true⟩),
             pending := [] }

/-- Run a trace of events from a starting state. -/
def runE (s : EngineState) (tr : List Event) : EngineState := tr.foldl stepE s

/-- Settle calls recorded for request `i` from the timeout, response and
connection-close paths. -/
def nonWriteCallsFor (calls : List CallRec) (i : Nat) : Nat :=
  calls.countP (fun c => c.id == i && !(c.src == Outcome.writeError))

/-- Settle calls recorded for request `i` from the write-error callback. -/
def writeCallsFor (calls : List CallRec) (i : Nat) : Nat :=
  calls.countP (fun c => c.id == i && c.src == Outcome.writeError)

/-- All settle calls recorded for request `i`. -/
def callsFor (calls : List CallRec) (i : Nat) : Nat :=
  calls.countP (fun c => c.id == i)

/-! ### Derived formulas and the engine invariant (definitions used by the
theorem statements) -/

/-- The payload values a zero-status response decodes to: one signed
16-bit LE value per complete byte pair after offset 15. -/
def decodedValues (r : List Nat) : List Int :=
  (List.range ((r.length - 15) / 2)).map (fun j => readInt16At r (15 + 2 * j))

/-- Invariant of the engine event machine: armed timers belong to pending
entries; id lists are duplicate-free and bounded by the counter; every
recorded settle call targets an entry no longer pending; a write-error
call's id has left the unfired-write list; calls from the
timeout/response/close paths were made while the entry was pending; and
each request receives at most one settle call from those paths and at
most one from the write-error callback. -/
structure EngineInv (s : EngineState) : Prop where
  timers_pending : ∀ t ∈ s.timers, t ∈ s.pending
  pending_nodup : s.pending.Nodup
  timers_nodup : s.timers.Nodup
  writes_nodup : s.writes.Nodup
  pending_le : ∀ i ∈ s.pending, i ≤ s.counter
  writes_le : ∀ i ∈ s.writes, i ≤ s.counter
  calls_le : ∀ c ∈ s.calls, c.id ≤ s.counter
  calls_not_pending : ∀ c ∈ s.calls, c.id ∉ s.pending
  write_calls_not_writes :
    ∀ c ∈ s.calls, c.src = Outcome.writeError → c.id ∉ s.writes
  nonwrite_wasPending :
    ∀ c ∈ s.calls, c.src ≠ Outcome.writeError → c.wasPending = true
  nonwrite_le_one : ∀ i, nonWriteCallsFor s.calls i ≤ 1
  write_le_one : ∀ i, writeCallsFor s.calls i ≤ 1

/-! ### Concrete frames and traces used as test vectors -/

/-- A minimal complete response frame: 13 bytes, data length 0. -/
def frameA : List Nat := [0xd4, 0, 0, 0, 0, 0, 0, 0, 0, 0, 0, 0, 0]

/-- A complete response frame of 14 bytes (data length 1) whose single
data byte — where a status byte would start — is non-zero. -/
def frameB : List Nat := [0xd4, 0, 0, 0, 0, 0, 0, 0, 0, 0, 0, 1, 0, 255]

/-- A complete 16-byte response frame: zero status and one unpaired
trailing byte after the payload-start offset 15. -/
def frameOdd : List Nat := [0xd4, 0, 0, 0, 0, 0, 0, 0, 0, 0, 0, 3, 0, 0, 0, 7]

/-- A complete 17-byte response frame: zero status and one 16-bit payload
value 12345. -/
def frameVal : List Nat :=
  [0xd4, 0, 0, 0, 0, 0, 0, 0, 0, 0, 0, 4, 0, 0, 0, 57, 48]

/-- An engine trace in which a request's timeout fires and afterwards its
`socket.write` callback reports an error: connect, send request 1, the
5-second request timer fires, then the write callback runs with an
error. -/
def raceTrace : List Event :=
  [Event.connectOk, Event.sendReq, Event.timerFire 1, Event.writeCbErr 1]

/-- Completeness of a frame is a decidable check. -/
instance (f : List Nat) : Decidable (CompleteFrame f) :=
  inferInstanceAs (Decidable (13 + dataLenOf f = f.length))

/-! ## Helper lemmas -/

/-- Reading the decimal digits of `n` back in base 10 recovers `n`. -/
theorem ofDigitsBase_decDigitsAux (fuel : Nat) :
    ∀ n, n ≤ fuel → ofDigitsBase 10 (decDigitsAux fuel n) = n := by
  induction fuel with
  | zero =>
    intro n h
    have : n = 0 := by omega
    subst this
    rfl
  | succ fuel ih =>
    intro n h
    cases n with
    | zero => rfl
    | succ m =>
      have hdiv : (m + 1) / 10 ≤ fuel := by omega
      simp only [decDigitsAux, ofDigitsBase]
      rw [ih _ hdiv]
      omega

/-- `parseInt(n.toString(), 10) = n`. -/
theorem reparse_ten (n : Nat) : reparse 10 n = n :=
  ofDigitsBase_decDigitsAux n n (Nat.le_refl n)

/-- Little-endian byte strings decode back to the encoded number. -/
theorem ofLEBytes_leBytes (w : Nat) :
    ∀ n, n < 256 ^ w → ofLEBytes (leBytes w n) = n := by
  induction w with
  | zero =>
    intro n h
    simp [Nat.pow_zero] at h
    simp [leBytes, ofLEBytes, h]
  | succ w ih =>
    intro n h
    have hdiv : n / 256 < 256 ^ w := by
      rw [Nat.div_lt_iff_lt_mul (by norm_num)]
      calc n < 256 ^ (w + 1) := h
        _ = 256 ^ w * 256 := by rw [Nat.pow_succ]
    simp only [leBytes, ofLEBytes]
    rw [ih _ hdiv]
    omega

/-- `takeWhile` of the non-digit test keeps a digit-free string whole. -/
theorem takeWhile_nondigit_all (dt : List Char)
    (h : ∀ c ∈ dt, isDigitC c = false) :
    dt.takeWhile (fun c => !(isDigitC c)) = dt := by
  induction dt with
  | nil => rfl
  | cons c t ih =>
    simp [List.takeWhile_cons, h c (by simp)]
    exact fun d hd => h d (by simp [hd])

/-- `firstNonDigitRun` on a non-empty, digit-free string is the whole
string. -/
theorem firstNonDigitRun_all (dt : List Char) (h1 : dt ≠ [])
    (h2 : ∀ c ∈ dt, isDigitC c = false) : firstNonDigitRun dt = some dt := by
  have hdrop : dt.dropWhile isDigitC = dt := by
    cases dt with
    | nil => rfl
    | cons c t => simp [List.dropWhile_cons, h2 c (by simp)]
  simp [firstNonDigitRun, hdrop, takeWhile_nondigit_all dt h2, h1]

/-! ## Claim C10 -/

/-- Claim C10: calling `connect()` while already connected resolves
immediately and leaves the whole connection state — socket, pending set,
inbound buffer — unchanged. -/
theorem connect_idempotent (s : EngineState) (h : s.connected = true) :
    connectCall s = (s, true) := by
  simp [connectCall, h]

/-- Witness for C10 at a concrete connected state. -/
theorem connect_idempotent_witness :
    (runE initState [Event.connectOk, Event.sendReq]).connected = true ∧
    connectCall (runE initState [Event.connectOk, Event.sendReq]) =
      (runE initState [Event.connectOk, Event.sendReq], true) :=
  ⟨by decide, connect_idempotent _ (by decide)⟩

/-! ## Claim C3 -/

/-- Claim C3 counterexample: for the hex-addressed device type `X` on the
Q series, the numeric offset 10 is encoded as the device-number bytes
`[16, 0, 0]` — the decimal digit string "10" re-read in base 16 — which
decode to 16, not to the offset 10 that was passed in.  The numeric base
therefore does change the binary encoding of a given numeric offset. -/
theorem device_codec_base_cex :
    getDeviceBase ['X'] = 16 ∧
    makeDeviceData PlcType.Q ['X'] 10 = .ok [16, 0, 0, 0x9c] ∧
    ofLEBytes [16, 0, 0] = 16 ∧ ¬(ofLEBytes [16, 0, 0] = 10) ∧
    makeDeviceData PlcType.Q ['D'] 10 = .ok [10, 0, 0, 0xa8] := by
  refine ⟨rfl, rfl, rfl, by decide, rfl⟩

/-- Claim C3 amended: the device-number bytes encode
`reparse (getDeviceBase deviceType) offset` — the offset's decimal digit
string re-read in the device's base.  For base-10 device types this is
exactly the offset, so only for hex-addressed types does the base change
the binary encoding. -/
theorem device_codec_base_amended (dt : List Char) (address code : Nat)
    (h1 : dt ≠ []) (h2 : ∀ c ∈ dt, isDigitC c = false)
    (h3 : List.lookup dt deviceCodes = some code) (h4 : code < 256) :
    (getDeviceBase dt = 10 → reparse (getDeviceBase dt) address = address) ∧
    (reparse (getDeviceBase dt) address < 256 ^ 3 →
      makeDeviceData .Q dt address =
        .ok (leBytes 3 (reparse (getDeviceBase dt) address) ++ [code % 256]) ∧
      ofLEBytes (leBytes 3 (reparse (getDeviceBase dt) address)) =
        reparse (getDeviceBase dt) address) ∧
    (reparse (getDeviceBase dt) address < 256 ^ 4 →
      makeDeviceData .iQR dt address =
        .ok (leBytes 4 (reparse (getDeviceBase dt) address) ++
          leBytes 2 code)) := by
  refine ⟨?_, ?_, ?_⟩
  · intro hbase
    rw [hbase, reparse_ten]
  · intro hlt
    have hrun := firstNonDigitRun_all dt h1 h2
    have hw3 : writeUIntLEBytes 3 (reparse (getDeviceBase dt) address) =
        .ok (leBytes 3 (reparse (getDeviceBase dt) address)) := by
      rw [writeUIntLEBytes, if_pos hlt]
    have hw1 : writeUIntLEBytes 1 code = .ok (leBytes 1 code) := by
      rw [writeUIntLEBytes, if_pos (by simpa using h4)]
    constructor
    · simp only [makeDeviceData, hrun, h3]
      simp [hw3, hw1, Bind.bind, Except.bind, leBytes, Pure.pure, Except.pure]
    · exact ofLEBytes_leBytes 3 _ hlt
  · intro hlt
    have hrun := firstNonDigitRun_all dt h1 h2
    have hw4 : writeUIntLEBytes 4 (reparse (getDeviceBase dt) address) =
        .ok (leBytes 4 (reparse (getDeviceBase dt) address)) := by
      rw [writeUIntLEBytes, if_pos hlt]
    have hw2 : writeUIntLEBytes 2 code = .ok (leBytes 2 code) := by
      rw [writeUIntLEBytes, if_pos (by norm_num; omega)]
    simp only [makeDeviceData, hrun, h3]
    simp [hw4, hw2, Bind.bind, Except.bind, Pure.pure, Except.pure]

/-- Witness for the amended C3 at device type `D`, offset 100, code
`0xa8`. -/
theorem device_codec_base_amended_witness :
    (['D'] : List Char) ≠ [] ∧ (∀ c ∈ (['D'] : List Char), isDigitC c = false) ∧
    List.lookup ['D'] deviceCodes = some 0xa8 ∧ (0xa8 : Nat) < 256 ∧
    (getDeviceBase ['D'] = 10 → reparse (getDeviceBase ['D']) 100 = 100) ∧
    (reparse (getDeviceBase ['D']) 100 < 256 ^ 3 →
      makeDeviceData .Q ['D'] 100 =
        .ok (leBytes 3 (reparse (getDeviceBase ['D']) 100) ++ [0xa8 % 256]) ∧
      ofLEBytes (leBytes 3 (reparse (getDeviceBase ['D']) 100)) =
        reparse (getDeviceBase ['D']) 100) :=
  ⟨by decide, by decide, by rfl, by decide,
    (device_codec_base_amended ['D'] 100 0xa8 (by decide) (by decide)
      (by rfl) (by decide)).1,
    (device_codec_base_amended ['D'] 100 0xa8 (by decide) (by decide)
      (by rfl) (by decide)).2.1⟩

/-! ## Claim C9 -/

/-- Claim C9: a complete frame with the correct response subheader but
total length below 15 bytes passes validation without any status-code
check — the PLC-status test is guarded by `response.length >= 15`. -/
theorem short_frame_validation (r : List Nat) (hc : CompleteFrame r)
    (hs : subheaderOf r = 0xd400) (hlen : r.length < 15) :
    validateResponse r = .ok () := by
  have h13 : 13 ≤ r.length := by
    unfold CompleteFrame at hc
    omega
  have hbe : bufReadUInt16BE r 0 = .ok (subheaderOf r) := by
    rw [bufReadUInt16BE, if_pos (by omega : 0 + 2 ≤ r.length)]
    rfl
  have hle9 : bufReadUInt16LE r 9 = .ok (r.getD 9 0 + 256 * r.getD 10 0) := by
    rw [bufReadUInt16LE, if_pos (by omega : 9 + 2 ≤ r.length)]
  have hn15 : ¬(15 ≤ r.length) := by omega
  rw [validateResponse, hbe, hs]
  simp only [ne_eq, reduceIte]
  rw [hle9]
  simp [hn15]

/-- Witness for C9: the 14-byte complete frame `frameB` has a non-zero
byte where a status field would begin, yet validates successfully. -/
theorem short_frame_validation_witness :
    CompleteFrame frameB ∧ subheaderOf frameB = 0xd400 ∧
    frameB.length < 15 ∧ frameB.getD 13 0 ≠ 0 ∧
    validateResponse frameB = .ok () :=
  ⟨by decide, by decide, by decide, by decide,
    short_frame_validation frameB (by decide) (by decide) (by decide)⟩

/-! ## Validator/decoder lemmas shared by C4 and C5 -/

/-- With the response subheader and a zero status (or a frame too short to
carry a status) validation succeeds. -/
theorem validate_ok_of_zero (r : List Nat) (h13 : 13 ≤ r.length)
    (hs : subheaderOf r = 0xd400) (hst : statusOf r = 0) :
    validateResponse r = .ok () := by
  have hbe : bufReadUInt16BE r 0 = .ok (subheaderOf r) := by
    rw [bufReadUInt16BE, if_pos (by omega : 0 + 2 ≤ r.length)]
    rfl
  have hle9 : bufReadUInt16LE r 9 = .ok (r.getD 9 0 + 256 * r.getD 10 0) := by
    rw [bufReadUInt16LE, if_pos (by omega : 9 + 2 ≤ r.length)]
  rw [validateResponse, hbe, hs]
  simp only [ne_eq, reduceIte]
  rw [hle9]
  by_cases h15 : 15 ≤ r.length
  · have hle13 : bufReadUInt16LE r 13 = .ok (statusOf r) := by
      rw [bufReadUInt16LE, if_pos (by omega : 13 + 2 ≤ r.length)]
      rfl
    simp [h15, hle13, hst]
  · simp [h15]

/-- With the response subheader, a status field present and non-zero,
validation fails with a PLC error carrying exactly that status. -/
theorem validate_err_of_nonzero (r : List Nat) (h15 : 15 ≤ r.length)
    (hs : subheaderOf r = 0xd400) (hst : statusOf r ≠ 0) :
    validateResponse r = .error (.plcError (statusOf r)) := by
  have hbe : bufReadUInt16BE r 0 = .ok (subheaderOf r) := by
    rw [bufReadUInt16BE, if_pos (by omega : 0 + 2 ≤ r.length)]
    rfl
  have hle9 : bufReadUInt16LE r 9 = .ok (r.getD 9 0 + 256 * r.getD 10 0) := by
    rw [bufReadUInt16LE, if_pos (by omega : 9 + 2 ≤ r.length)]
  have hle13 : bufReadUInt16LE r 13 = .ok (statusOf r) := by
    rw [bufReadUInt16LE, if_pos (by omega : 13 + 2 ≤ r.length)]
    rfl
  rw [validateResponse, hbe, hs]
  simp only [ne_eq, reduceIte]
  rw [hle9]
  simp [h15, hle13, hst]

/-- The value-collection loop equals one decoded value per complete byte
pair from offset `i` to the end of the frame. -/
theorem collectValuesAux_formula (r : List Nat) :
    ∀ fuel i, r.length ≤ fuel + i →
      collectValuesAux r fuel i =
        (List.range ((r.length - i) / 2)).map
          (fun j => readInt16At r (i + 2 * j)) := by
  intro fuel
  induction fuel with
  | zero =>
    intro i h
    have : (r.length - i) / 2 = 0 := by omega
    simp [collectValuesAux, this]
  | succ fuel ih =>
    intro i h
    by_cases hi : i < r.length
    · by_cases hi1 : i + 1 < r.length
      · have hrange : (r.length - i) / 2 = (r.length - (i + 2)) / 2 + 1 := by
          omega
        rw [collectValuesAux]
        simp only [hi, if_pos, hi1, if_pos]
        rw [ih (i + 2) (by omega), hrange, List.range_succ_eq_map]
        simp only [List.map_cons, List.map_map, if_pos hi1]
        have harg : i + 2 * 0 = i := by omega
        simp only [Nat.mul_zero, Nat.add_zero, List.singleton_append,
          List.cons.injEq]
        constructor
        · trivial
        · apply List.map_congr_left
          intro j _
          simp only [Function.comp_apply]
          have : i + 2 * (j + 1) = i + 2 + 2 * j := by omega
          rw [this]
      · have hlen : r.length = i + 1 := by omega
        have hrange : (r.length - i) / 2 = 0 := by omega
        rw [collectValuesAux]
        simp [hi, hi1, hrange, ih (i + 2) (by omega),
          show (r.length - (i + 2)) / 2 = 0 by omega]
    · have hrange : (r.length - i) / 2 = 0 := by omega
      rw [collectValuesAux]
      simp [hi, hrange]

/-- `collectValues` from offset 15 equals the decoded-values formula. -/
theorem collectValues_eq_decodedValues (r : List Nat) :
    collectValues r 15 = decodedValues r := by
  rw [collectValues, collectValuesAux_formula r r.length 15 (by omega),
    decodedValues]

/-- A complete zero-status frame parses to the decoded-values formula. -/
theorem parse_ok_formula (r : List Nat) (h13 : 13 ≤ r.length)
    (hs : subheaderOf r = 0xd400) (hst : statusOf r = 0) :
    parseReadResponse r = .ok (decodedValues r) := by
  rw [parseReadResponse, validate_ok_of_zero r h13 hs hst,
    collectValues_eq_decodedValues]

/-! ## Claim C4 -/

/-- Claim C4: for a complete frame with the response subheader and a
status field present, a non-zero status makes validation and decoding
fail with a PLC error carrying exactly that code and no values; a zero
status decodes exactly one signed 16-bit LE value per complete byte pair
after the payload-start offset 15. -/
theorem validator_decoder_spec (r : List Nat) (_hc : CompleteFrame r)
    (hs : subheaderOf r = 0xd400) (h15 : 15 ≤ r.length) :
    (statusOf r ≠ 0 →
      validateResponse r = .error (.plcError (statusOf r)) ∧
      parseReadResponse r = .error (.plcError (statusOf r))) ∧
    (statusOf r = 0 →
      parseReadResponse r = .ok (decodedValues r) ∧
      (decodedValues r).length = (r.length - 15) / 2 ∧
      ∀ j < (r.length - 15) / 2,
        (decodedValues r).getD j 0 = readInt16At r (15 + 2 * j)) := by
  have h13 : 13 ≤ r.length := by omega
  constructor
  · intro hst
    have hv := validate_err_of_nonzero r h15 hs hst
    refine ⟨hv, ?_⟩
    rw [parseReadResponse, hv]
  · intro hst
    refine ⟨parse_ok_formula r h13 hs hst, by simp [decodedValues], ?_⟩
    intro j hj
    rw [decodedValues, List.getD_eq_getElem?_getD, List.getElem?_map,
      List.getElem?_range hj]
    rfl

/-- Witness for C4 at the concrete zero-status frame `frameVal`, which
decodes to the single value 12345. -/
theorem validator_decoder_spec_witness :
    CompleteFrame frameVal ∧ subheaderOf frameVal = 0xd400 ∧
    15 ≤ frameVal.length ∧ statusOf frameVal = 0 ∧
    parseReadResponse frameVal = .ok (decodedValues frameVal) ∧
    decodedValues frameVal = [12345] :=
  ⟨by decide, by decide, by decide, by decide,
    ((validator_decoder_spec frameVal (by decide) (by decide) (by decide)).2
      (by decide)).1,
    by decide⟩

/-! ## Claim C5 -/

/-- Claim C5 counterexample: `frameOdd` is a complete zero-status frame
with the response subheader and exactly one (odd) trailing byte after the
payload-start offset, yet decoding succeeds with an empty value list —
no error of any kind is raised, the unpaired byte is silently dropped. -/
theorem odd_trailing_cex :
    CompleteFrame frameOdd ∧ subheaderOf frameOdd = 0xd400 ∧
    statusOf frameOdd = 0 ∧ (frameOdd.length - 15) % 2 = 1 ∧
    parseReadResponse frameOdd = .ok [] := by
  refine ⟨by decide, by decide, by decide, by decide, by rfl⟩

/-- Claim C5 amended: a complete zero-status frame whose trailing byte
count after offset 15 is odd does not fail; `parseReadResponse` silently
ignores the final unpaired byte and returns one value per complete byte
pair. -/
theorem odd_trailing_amended (r : List Nat) (_hc : CompleteFrame r)
    (hs : subheaderOf r = 0xd400) (h15 : 15 ≤ r.length)
    (hst : statusOf r = 0) (_hodd : (r.length - 15) % 2 = 1) :
    parseReadResponse r = .ok (decodedValues r) ∧
    (decodedValues r).length = (r.length - 15) / 2 ∧
    ∀ e : MCError, parseReadResponse r ≠ .error e := by
  have h13 : 13 ≤ r.length := by omega
  have hok := parse_ok_formula r h13 hs hst
  refine ⟨hok, by simp [decodedValues], ?_⟩
  intro e he
  rw [hok] at he
  exact Except.noConfusion he

/-- Witness for the amended C5 at the concrete frame `frameOdd`. -/
theorem odd_trailing_amended_witness :
    CompleteFrame frameOdd ∧ subheaderOf frameOdd = 0xd400 ∧
    15 ≤ frameOdd.length ∧ statusOf frameOdd = 0 ∧
    (frameOdd.length - 15) % 2 = 1 ∧
    parseReadResponse frameOdd = .ok (decodedValues frameOdd) :=
  ⟨by decide, by decide, by decide, by decide, by decide,
    (odd_trailing_amended frameOdd (by decide) (by decide) (by decide)
      (by decide) (by decide)).1⟩

/-! ## Register-name parsing lemmas for C8 -/

/-- A decimal digit is not an uppercase letter. -/
theorem digit_not_upper (c : Char) (h : isDigitC c = true) :
    isUpperC c = false := by
  simp [isDigitC] at h
  simp [isUpperC]
  omega

/-- `takeWhile`/`dropWhile` of `isUpperC` split a letters-then-rest string
exactly at the first non-letter. -/
theorem upper_takeWhile_append (d : List Char) (e : Char) (ds : List Char)
    (hd : ∀ c ∈ d, isUpperC c = true) (he : isUpperC e = false) :
    (d ++ e :: ds).takeWhile isUpperC = d ∧
    (d ++ e :: ds).dropWhile isUpperC = e :: ds := by
  induction d with
  | nil => simp [List.takeWhile_cons, List.dropWhile_cons, he]
  | cons a t ih =>
    have ha : isUpperC a = true := hd a (by simp)
    have iht := ih (fun c hc => hd c (by simp [hc]))
    simp [List.takeWhile_cons, List.dropWhile_cons, ha, iht.1, iht.2]

/-- Every element of a `takeWhile` satisfies the test. -/
theorem mem_takeWhile_sat {p : Char → Bool} :
    ∀ (l : List Char) (c : Char), c ∈ l.takeWhile p → p c = true := by
  intro l
  induction l with
  | nil => intro c hc; simp [List.takeWhile] at hc
  | cons a t ih =>
    intro c hc
    rw [List.takeWhile_cons] at hc
    by_cases ha : p a = true
    · rw [if_pos ha] at hc
      rcases List.mem_cons.mp hc with h | h
      · exact h ▸ ha
      · exact ih c h
    · rw [if_neg ha] at hc
      simp at hc

/-! ## Claim C8 -/

/-- Claim C8 counterexample: `"d0"` matches the claimed format
`[A-Za-z]+[0-9]+` (one or more letters of either case, then digits), yet
`plcRead`'s parser — whose regex is `^([A-Z]+)(\d+)$`, uppercase only —
rejects it with an invalid-register-format error. -/
theorem register_format_cex :
    specAddressFormat (fun c => isUpperC c || isLowerC c) ['d', '0'] ∧
    matchRegister ['d', '0'] = none ∧
    plcReadParse [['d', '0']] =
      .error (.invalidRegisterFormat ['d', '0']) := by
  refine ⟨⟨['d'], ['0'], rfl, by decide, by decide, by decide, by decide⟩,
    by rfl, by rfl⟩

/-- Claim C8 amended: `plcRead` accepts exactly the names of the form
`[A-Z]+[0-9]+` — one or more UPPERCASE letters followed by one or more
decimal digits — splitting each into its device letters and numeric
offset; any other name (lowercase letters included) makes the
address-mapping stage fail with an invalid-register-format error before
any frame is built or sent. -/
theorem register_format_amended (s : List Char) :
    ((matchRegister s).isSome ↔ specAddressFormat isUpperC s) ∧
    (∀ d ds, matchRegister s = some (d, ds) →
      s = d ++ ds ∧ d ≠ [] ∧ (∀ c ∈ d, isUpperC c = true) ∧ ds ≠ [] ∧
        (∀ c ∈ ds, isDigitC c = true)) ∧
    (∀ regs, s ∈ regs → matchRegister s = none →
      ∃ t, plcReadParse regs = .error (.invalidRegisterFormat t) ∧
        matchRegister t = none) := by
  refine ⟨⟨?_, ?_⟩, ?_, ?_⟩
  · intro hsome
    rw [matchRegister] at hsome
    by_cases hcond : s.takeWhile isUpperC ≠ [] ∧ s.dropWhile isUpperC ≠ [] ∧
        (s.dropWhile isUpperC).all isDigitC
    · exact ⟨s.takeWhile isUpperC, s.dropWhile isUpperC,
        (List.takeWhile_append_dropWhile isUpperC s).symm, hcond.1,
        hcond.2.1, fun c hc => mem_takeWhile_sat s c hc,
        fun c hc => List.all_eq_true.mp hcond.2.2 c hc⟩
    · rw [if_neg hcond] at hsome
      simp at hsome
  · rintro ⟨d, ds, hsplit, hd, hds, hdall, hdsall⟩
    cases ds with
    | nil => exact absurd rfl hds
    | cons e ds' =>
      have he : isUpperC e = false :=
        digit_not_upper e (hdsall e (by simp))
      have hsp := upper_takeWhile_append d e ds' hdall he
      rw [matchRegister, hsplit, hsp.1, hsp.2]
      rw [if_pos ⟨hd, by simp, List.all_eq_true.mpr hdsall⟩]
      rfl
  · intro d ds hmatch
    rw [matchRegister] at hmatch
    by_cases hcond : s.takeWhile isUpperC ≠ [] ∧ s.dropWhile isUpperC ≠ [] ∧
        (s.dropWhile isUpperC).all isDigitC
    · rw [if_pos hcond] at hmatch
      have hpair : (s.takeWhile isUpperC, s.dropWhile isUpperC) = (d, ds) :=
        Option.some.inj hmatch
      have h1 : s.takeWhile isUpperC = d := congrArg Prod.fst hpair
      have h2 : s.dropWhile isUpperC = ds := congrArg Prod.snd hpair
      subst h1
      subst h2
      exact ⟨(List.takeWhile_append_dropWhile isUpperC s).symm, hcond.1,
        fun c hc => mem_takeWhile_sat s c hc, hcond.2.1,
        fun c hc => List.all_eq_true.mp hcond.2.2 c hc⟩
    · rw [if_neg hcond] at hmatch
      exact Option.noConfusion hmatch
  · intro regs hmem hnone
    induction regs with
    | nil => simp at hmem
    | cons r rs ih =>
      rcases List.mem_cons.mp hmem with h | h
      · subst h
        exact ⟨s, by rw [plcReadParse, hnone], hnone⟩
      · rw [plcReadParse]
        cases hr : matchRegister r with
        | none => exact ⟨r, rfl, hr⟩
        | some pair =>
          obtain ⟨t, ht, htn⟩ := ih h
          rw [ht]
          exact ⟨t, rfl, htn⟩

/-- Witness for the amended C8 at the concrete name `"D100"`. -/
theorem register_format_amended_witness :
    matchRegister ['D', '1', '0', '0'] = some (['D'], ['1', '0', '0']) ∧
    (['D', '1', '0', '0'] : List Char) = ['D'] ++ ['1', '0', '0'] ∧
    (∀ c ∈ (['D'] : List Char), isUpperC c = true) ∧
    digitsVal ['1', '0', '0'] = 100 :=
  ⟨by rfl,
    ((register_format_amended ['D', '1', '0', '0']).2.1 ['D'] ['1', '0', '0']
      (by rfl)).1,
    ((register_format_amended ['D', '1', '0', '0']).2.1 ['D'] ['1', '0', '0']
      (by rfl)).2.2.1,
    by decide⟩

/-! ## Frame Builder lemmas for C1 -/

/-- `encodeValue` in unsigned short mode, unfolded. -/
theorem encodeValue_short_unsigned (v : Int) :
    encodeValue v .short false =
      if 0 ≤ v ∧ v ≤ 65535 then .ok (leBytes 2 v.toNat)
      else .error .rangeError := rfl

/-- Whenever the 4E envelope is built around a body, the total frame
length is the 13-byte fixed header plus the 2-byte timer field plus the
body length, and the embedded length field at offset 11 is exactly
`2 + bodyLength`, computed from the body. -/
theorem frame4EEnvelope_spec (body frame : List Nat)
    (h : frame4EEnvelope body = .ok frame) :
    frame.length = 13 + 2 + body.length ∧
    lenFieldOf frame = 2 + body.length := by
  have e1 : encodeValue 0x0000 EncMode.short false = .ok [0, 0] := rfl
  have e2 : encodeValue 0 EncMode.short false = .ok [0, 0] := rfl
  have e3 : encodeValue 0 EncMode.byte false = .ok [0] := rfl
  have e4 : encodeValue 0xff EncMode.byte false = .ok [255] := rfl
  have e5 : encodeValue 0x03ff EncMode.short false = .ok [255, 3] := rfl
  have e6 : encodeValue 0x00 EncMode.byte false = .ok [0] := rfl
  have e7 : encodeValue 4 EncMode.short false = .ok [4, 0] := rfl
  simp only [frame4EEnvelope, e1, e2, e3, e4, e5, e6, e7, Bind.bind,
    Except.bind, encodeValue_short_unsigned] at h
  split at h
  · exact Except.noConfusion h
  · rename_i v heq
    obtain rfl := Except.ok.inj h
    split at heq
    · rename_i hrange
      obtain rfl := Except.ok.inj heq
      have ht : ((2 : Int) + body.length).toNat = 2 + body.length := by omega
      constructor
      · simp [leBytes, List.length_append]
        omega
      · simp only [lenFieldOf, leBytes, List.cons_append, List.nil_append,
          List.getD_cons_succ, List.getD_cons_zero]
        omega
    · exact Except.noConfusion heq

/-! ## Claim C1 -/

/-- Claim C1: every read or write frame the Frame Builder produces has
total length `fixedHeaderLength (13) + timerFieldWidth (2) + bodyLength`,
and its embedded 2-byte length field equals `timerFieldWidth (2) +
bodyLength`, computed from the actual body. -/
theorem frame_builder_length (pt : PlcType) (device : List Char)
    (address count : Nat) (values : List Int)
    (bodyR frameR bodyW frameW : List Nat)
    (hbr : readRequestData pt device address count = .ok bodyR)
    (hfr : create4EReadFrame pt device address count = .ok frameR)
    (hbw : writeRequestData pt device address values = .ok bodyW)
    (hfw : create4EWriteFrame pt device address values = .ok frameW) :
    frameR.length = 13 + 2 + bodyR.length ∧
    lenFieldOf frameR = 2 + bodyR.length ∧
    frameW.length = 13 + 2 + bodyW.length ∧
    lenFieldOf frameW = 2 + bodyW.length := by
  simp only [create4EReadFrame, hbr, Bind.bind, Except.bind] at hfr
  simp only [create4EWriteFrame, hbw, Bind.bind, Except.bind] at hfw
  obtain ⟨hr1, hr2⟩ := frame4EEnvelope_spec bodyR frameR hfr
  obtain ⟨hw1, hw2⟩ := frame4EEnvelope_spec bodyW frameW hfw
  exact ⟨hr1, hr2, hw1, hw2⟩

/-- Witness for C1: the concrete read frame for `D100`, count 2, and
write frame for `D100` with values `[1, -1]` on the Q series. -/
theorem frame_builder_length_witness :
    readRequestData .Q ['D'] 100 2 = .ok [1, 4, 0, 0, 100, 0, 0, 168, 2, 0] ∧
    create4EReadFrame .Q ['D'] 100 2 =
      .ok [84, 0, 0, 0, 0, 0, 0, 255, 255, 3, 0, 12, 0, 4, 0,
        1, 4, 0, 0, 100, 0, 0, 168, 2, 0] ∧
    writeRequestData .Q ['D'] 100 [1, -1] =
      .ok [1, 20, 0, 0, 100, 0, 0, 168, 2, 0, 1, 0, 255, 255] ∧
    create4EWriteFrame .Q ['D'] 100 [1, -1] =
      .ok [84, 0, 0, 0, 0, 0, 0, 255, 255, 3, 0, 16, 0, 4, 0,
        1, 20, 0, 0, 100, 0, 0, 168, 2, 0, 1, 0, 255, 255] ∧
    ([84, 0, 0, 0, 0, 0, 0, 255, 255, 3, 0, 12, 0, 4, 0,
        1, 4, 0, 0, 100, 0, 0, 168, 2, 0] : List Nat).length =
      13 + 2 + ([1, 4, 0, 0, 100, 0, 0, 168, 2, 0] : List Nat).length ∧
    lenFieldOf [84, 0, 0, 0, 0, 0, 0, 255, 255, 3, 0, 12, 0, 4, 0,
        1, 4, 0, 0, 100, 0, 0, 168, 2, 0] =
      2 + ([1, 4, 0, 0, 100, 0, 0, 168, 2, 0] : List Nat).length :=
  ⟨by rfl, by rfl, by rfl, by rfl,
    (frame_builder_length .Q ['D'] 100 2 [1, -1] _ _ _ _
      (by rfl) (by rfl) (by rfl) (by rfl)).1,
    (frame_builder_length .Q ['D'] 100 2 [1, -1] _ _ _ _
      (by rfl) (by rfl) (by rfl) (by rfl)).2.1⟩

/-! ## Stream Reassembler lemmas for C2 -/

/-- `getD` on an append reads the left part while in range. -/
theorem getD_append_left (l₁ l₂ : List Nat) (n : Nat) (h : n < l₁.length) :
    (l₁ ++ l₂).getD n 0 = l₁.getD n 0 := by
  simp [List.getD_eq_getElem?_getD, List.getElem?_append, h]

/-- The data-length field of a buffer is already determined by a prefix of
at least 13 bytes. -/
theorem dataLen_prefix (p t : List Nat) (h : 13 ≤ p.length) :
    dataLenOf (p ++ t) = dataLenOf p := by
  unfold dataLenOf
  rw [getD_append_left p t 11 (by omega), getD_append_left p t 12 (by omega)]

/-- The extraction loop leaves an empty buffer alone. -/
theorem extractAux_nil : ∀ fuel, extractFramesAux fuel [] = ([], []) := by
  intro fuel
  cases fuel <;> rfl

/-- A strict prefix of a complete frame never yields an extraction: with
fewer than 13 bytes the loop cannot start, and otherwise the data-length
field — shared with the complete frame — demands more bytes than the
prefix has. -/
theorem extractAux_prefix (f p t : List Nat) (hc : CompleteFrame f)
    (hpt : p ++ t = f) (ht : t ≠ []) :
    ∀ fuel, extractFramesAux fuel p = (p, []) := by
  have hceq : 13 + dataLenOf f = f.length := hc
  have htl : 0 < t.length := List.length_pos.mpr ht
  have hlt : p.length < f.length := by
    rw [← hpt, List.length_append]
    omega
  intro fuel
  cases fuel with
  | zero => rfl
  | succ fuel =>
    simp only [extractFramesAux]
    by_cases h13 : 13 ≤ p.length
    · have hdl : dataLenOf f = dataLenOf p := by
        rw [← hpt]
        exact dataLen_prefix p t h13
      have hnt : ¬(13 + dataLenOf p ≤ p.length) := by omega
      simp [h13, hnt]
    · simp [h13]

/-- Extracting from exactly one complete frame yields that frame and an
empty buffer. -/
theorem extractAux_exact (f : List Nat) (hc : CompleteFrame f) :
    ∀ fuel, extractFramesAux (fuel + 1) f = ([], [f]) := by
  intro fuel
  have hceq : 13 + dataLenOf f = f.length := hc
  have h13 : 13 ≤ f.length := by omega
  have htot : 13 + dataLenOf f ≤ f.length := by omega
  simp only [extractFramesAux]
  simp [h13, htot, hceq, extractAux_nil]

/-- Extracting from a complete frame followed by more bytes peels off
exactly that frame and continues on the remainder. -/
theorem extractAux_step (f r : List Nat) (hc : CompleteFrame f) :
    ∀ fuel, extractFramesAux (fuel + 1) (f ++ r) =
      ((extractFramesAux fuel r).1, f :: (extractFramesAux fuel r).2) := by
  intro fuel
  have hceq : 13 + dataLenOf f = f.length := hc
  have h13f : 13 ≤ f.length := by omega
  have hdl : dataLenOf (f ++ r) = dataLenOf f := dataLen_prefix f r h13f
  have h13 : 13 ≤ f.length + r.length := by omega
  have htot : f.length ≤ f.length + r.length := by omega
  have htake : (f ++ r).take f.length = f := List.take_left f r
  have hdrop : (f ++ r).drop f.length = r := List.drop_left f r
  simp only [extractFramesAux, hdl, hceq]
  simp [List.length_append, h13, htot, htake, hdrop]

/-- `extractFrames` on one complete frame. -/
theorem extract_complete (f : List Nat) (hc : CompleteFrame f) :
    extractFrames f = ([], [f]) := by
  have hceq : 13 + dataLenOf f = f.length := hc
  obtain ⟨k, hk⟩ : ∃ k, f.length = k + 1 := ⟨f.length - 1, by omega⟩
  rw [extractFrames, hk]
  exact extractAux_exact f hc k

/-- `extractFrames` on two concatenated complete frames. -/
theorem extract_two (f1 f2 : List Nat) (h1 : CompleteFrame f1)
    (h2 : CompleteFrame f2) : extractFrames (f1 ++ f2) = ([], [f1, f2]) := by
  have hceq1 : 13 + dataLenOf f1 = f1.length := h1
  have hceq2 : 13 + dataLenOf f2 = f2.length := h2
  obtain ⟨k, hk⟩ : ∃ k, (f1 ++ f2).length = k + 1 :=
    ⟨(f1 ++ f2).length - 1, by rw [List.length_append]; omega⟩
  rw [extractFrames, hk, extractAux_step f1 f2 h1 k]
  obtain ⟨m, hm⟩ : ∃ m, k = m + 1 := by
    rw [List.length_append] at hk
    exact ⟨k - 1, by omega⟩
  rw [hm, extractAux_exact f2 h2 m]

/-- `extractFrames` on a strict prefix of a complete frame. -/
theorem extract_strict_prefix (f p t : List Nat) (hc : CompleteFrame f)
    (hpt : p ++ t = f) (ht : t ≠ []) : extractFrames p = (p, []) := by
  rw [extractFrames]
  exact extractAux_prefix f p t hc hpt ht p.length

/-- Feeding a complete frame in any sequence of chunks, starting from a
buffered proper prefix, extracts exactly the frame once the last chunk
arrives and buffers every intermediate prefix unchanged. -/
theorem feedAll_chunks (f : List Nat) (hc : CompleteFrame f) :
    ∀ (chunks : List (List Nat)) (p : List Nat) (acc : List (List Nat)),
      (∀ c ∈ chunks, c ≠ []) → p ++ chunks.flatten = f → p ≠ f →
      feedAll (p, acc) chunks = ([], acc ++ [f]) := by
  intro chunks
  induction chunks with
  | nil =>
    intro p acc _ hflat hne
    rw [List.flatten_nil, List.append_nil] at hflat
    exact absurd hflat hne
  | cons c cs ih =>
    intro p acc hne hflat hpne
    have hflat' : (p ++ c) ++ cs.flatten = f := by
      rw [List.append_assoc]
      rw [List.flatten_cons] at hflat
      exact hflat
    by_cases he : p ++ c = f
    · have hnil : cs.flatten = [] := by
        rw [he] at hflat'
        have hlen := congrArg List.length hflat'
        rw [List.length_append] at hlen
        exact List.eq_nil_of_length_eq_zero (by omega)
      have hcs : cs = [] := by
        cases cs with
        | nil => rfl
        | cons d ds =>
          exfalso
          rw [List.flatten_cons] at hnil
          exact hne d (by simp) (List.append_eq_nil.mp hnil).1
      subst hcs
      simp only [feedAll, List.foldl_cons, List.foldl_nil]
      simp [feed, handleResponse, he, extract_complete f hc]
    · have htne : cs.flatten ≠ [] := by
        intro h0
        apply he
        rw [h0, List.append_nil] at hflat'
        exact hflat'
      have hext : extractFrames (p ++ c) = (p ++ c, []) :=
        extract_strict_prefix f (p ++ c) cs.flatten hc hflat' htne
      have hfeed : feed (p, acc) c = (p ++ c, acc) := by
        simp [feed, handleResponse, hext]
      simp only [feedAll, List.foldl_cons]
      rw [hfeed]
      exact ih (p ++ c) acc (fun d hd => hne d (List.mem_cons_of_mem c hd))
        hflat' he

/-! ## Claim C2 -/

/-- Claim C2: feeding a complete frame to the reassembler in any sequence
of non-empty chunks extracts exactly that frame, byte-identical, leaving
an empty buffer; two concatenated complete frames in one chunk extract as
exactly two frames in order; a strict prefix of a complete frame extracts
nothing and stays buffered unchanged. -/
theorem reassembler_spec (f f1 f2 p t : List Nat)
    (chunks : List (List Nat)) (hc : CompleteFrame f)
    (hch : ∀ c ∈ chunks, c ≠ []) (hflat : chunks.flatten = f)
    (h1 : CompleteFrame f1) (h2 : CompleteFrame f2)
    (hpt : p ++ t = f) (ht : t ≠ []) :
    feedAll ([], []) chunks = ([], [f]) ∧
    handleResponse [] (f1 ++ f2) = ([], [f1, f2]) ∧
    handleResponse [] p = (p, []) := by
  have hceq : 13 + dataLenOf f = f.length := hc
  refine ⟨?_, ?_, ?_⟩
  · have hfne : ([] : List Nat) ≠ f := by
      intro h0
      have := congrArg List.length h0
      simp at this
      omega
    have := feedAll_chunks f hc chunks [] [] hch (by simpa using hflat) hfne
    simpa using this
  · rw [handleResponse, List.nil_append]
    exact extract_two f1 f2 h1 h2
  · rw [handleResponse, List.nil_append]
    exact extract_strict_prefix f p t hc hpt ht

/-- Witness for C2: `frameA` fed byte-at-a-time, `frameA ++ frameB` in one
chunk, and the 5-byte strict prefix of `frameA`. -/
theorem reassembler_spec_witness :
    CompleteFrame frameA ∧ CompleteFrame frameB ∧
    ([[0xd4], [0], [0], [0], [0], [0], [0], [0], [0], [0], [0], [0],
      [0]] : List (List Nat)).flatten = frameA ∧
    ([0xd4, 0, 0, 0, 0] : List Nat) ++ [0, 0, 0, 0, 0, 0, 0, 0] = frameA ∧
    feedAll ([], []) [[0xd4], [0], [0], [0], [0], [0], [0], [0], [0], [0],
      [0], [0], [0]] = ([], [frameA]) ∧
    handleResponse [] (frameA ++ frameB) = ([], [frameA, frameB]) ∧
    handleResponse [] [0xd4, 0, 0, 0, 0] = ([0xd4, 0, 0, 0, 0], []) := by
  have h := reassembler_spec frameA frameA frameB [0xd4, 0, 0, 0, 0]
    [0, 0, 0, 0, 0, 0, 0, 0]
    [[0xd4], [0], [0], [0], [0], [0], [0], [0], [0], [0], [0], [0], [0]]
    (by decide) (by decide) (by decide) (by decide) (by decide) (by decide)
    (by decide)
  exact ⟨by decide, by decide, by decide, by decide, h.1, h.2.1, h.2.2⟩

/-! ## Engine machine lemmas for C6 and C7 -/

/-- The invariant ignores the connection flag, socket generation and
inbound buffer. -/
theorem inv_update (s : EngineState) (h : EngineInv s) (b : Bool) (g : Nat)
    (buf : List Nat) :
    EngineInv { s with connected := b, socketGen := g, buffer := buf } :=
  ⟨h.timers_pending, h.pending_nodup, h.timers_nodup, h.writes_nodup,
   h.pending_le, h.writes_le, h.calls_le, h.calls_not_pending,
   h.write_calls_not_writes, h.nonwrite_wasPending, h.nonwrite_le_one,
   h.write_le_one⟩

/-- A single recorded call contributes at most one to any count. -/
theorem countP_singleton_le_one (p : CallRec → Bool) (c : CallRec) :
    List.countP p [c] ≤ 1 := by
  by_cases hpc : p c = true <;> simp [List.countP_cons, hpc]

/-- `processResponse` preserves the engine invariant. -/
theorem processOne_inv (s : EngineState) (frame : List Nat)
    (h : EngineInv s) : EngineInv (processOne s frame) := by
  rcases hp : s.pending with _ | ⟨id, rest⟩
  · simpa only [processOne, hp] using h
  · have hnodup : (id :: rest).Nodup := hp ▸ h.pending_nodup
    have hid_rest : id ∉ rest := (List.nodup_cons.mp hnodup).1
    have hrest_nodup : rest.Nodup := (List.nodup_cons.mp hnodup).2
    have hid_mem : id ∈ s.pending := by rw [hp]; simp
    simp only [processOne, hp]
    refine ⟨?_, hrest_nodup, h.timers_nodup.erase id, h.writes_nodup,
      ?_, h.writes_le, ?_, ?_, ?_, ?_, ?_, ?_⟩
    · intro u hu
      obtain ⟨hune, humem⟩ := (h.timers_nodup.mem_erase_iff).mp hu
      have := h.timers_pending u humem
      rw [hp] at this
      rcases List.mem_cons.mp this with heq | hmem
      · exact absurd heq hune
      · exact hmem
    · intro j hj
      exact h.pending_le j (by rw [hp]; exact List.mem_cons_of_mem id hj)
    · intro c hc
      rcases List.mem_append.mp hc with hold | hnew
      · exact h.calls_le c hold
      · simp at hnew
        rw [hnew]
        exact h.pending_le id hid_mem
    · intro c hc
      rcases List.mem_append.mp hc with hold | hnew
      · intro hmem
        exact h.calls_not_pending c hold (by rw [hp]; exact List.mem_cons_of_mem id hmem)
      · simp at hnew
        rw [hnew]
        exact hid_rest
    · intro c hc hsrc
      rcases List.mem_append.mp hc with hold | hnew
      · exact h.write_calls_not_writes c hold hsrc
      · simp at hnew
        rw [hnew] at hsrc
        exact absurd hsrc (by simp)
    · intro c hc hsrc
      rcases List.mem_append.mp hc with hold | hnew
      · exact h.nonwrite_wasPending c hold hsrc
      · simp at hnew
        simp [hnew]
    · intro i
      rw [nonWriteCallsFor, List.countP_append]
      by_cases hii : i = id
      · subst hii
        have hz : (s.calls.countP
            (fun c => c.id == i && !(c.src == Outcome.writeError))) = 0 := by
          refine List.countP_eq_zero.mpr (fun c hc hb => ?_)
          have : c.id = i := by
            have := (Bool.and_eq_true _ _).mp hb
            simpa using this.1
          exact h.calls_not_pending c hc (this ▸ hid_mem)
        have hsing := countP_singleton_le_one
          (fun c => c.id == i && !(c.src == Outcome.writeError))
          ⟨i, Outcome.response, (i :: rest).contains i⟩
        omega
      · have hone := h.nonwrite_le_one i
        rw [nonWriteCallsFor] at hone
        have hz : (([⟨id, Outcome.response, (id :: rest).contains id⟩] :
            List CallRec).countP
            (fun c => c.id == i && !(c.src == Outcome.writeError))) = 0 := by
          refine List.countP_eq_zero.mpr (fun c hc hb => ?_)
          simp at hc
          rw [hc] at hb
          have hand := (Bool.and_eq_true _ _).mp hb
          have hid_eq : id = i := by simpa using hand.1
          exact hii hid_eq.symm
        omega
    · intro i
      rw [writeCallsFor, List.countP_append]
      have hone := h.write_le_one i
      rw [writeCallsFor] at hone
      have hz : (([⟨id, Outcome.response, (id :: rest).contains id⟩] :
          List CallRec).countP
          (fun c => c.id == i && c.src == Outcome.writeError)) = 0 := by
        refine List.countP_eq_zero.mpr (fun c hc hb => ?_)
        simp at hc
        rw [hc] at hb
        have := (Bool.and_eq_true _ _).mp hb
        simp at this
      omega

/-- Folding `processResponse` over extracted frames preserves the
invariant. -/
theorem processFold_inv (frames : List (List Nat)) :
    ∀ s, EngineInv s → EngineInv (frames.foldl processOne s) := by
  induction frames with
  | nil => intro s h; exact h
  | cons fr frames ih =>
    intro s h
    exact ih (processOne s fr) (processOne_inv s fr h)

/-- Every engine event preserves the invariant. -/
theorem stepE_inv (s : EngineState) (e : Event) (h : EngineInv s) :
    EngineInv (stepE s e) := by
  cases e with
  | connectCall =>
    simp only [stepE, connectCall]
    by_cases hcon : s.connected = true
    · simp only [hcon, if_true]
      exact h
    · simp only [hcon, if_false, Bool.false_eq_true, reduceIte]
      exact inv_update s h false (s.socketGen + 1) s.buffer
  | connectOk =>
    exact inv_update s h true s.socketGen s.buffer
  | sendReq =>
    by_cases hcon : s.connected = true
    · simp only [stepE, hcon, if_true]
      have hfresh_p : s.counter + 1 ∉ s.pending := fun hm => by
        have := h.pending_le _ hm
        omega
      have hfresh_w : s.counter + 1 ∉ s.writes := fun hm => by
        have := h.writes_le _ hm
        omega
      have hfresh_t : s.counter + 1 ∉ s.timers := fun hm =>
        hfresh_p (h.timers_pending _ hm)
      refine ⟨?_, ?_, ?_, ?_, ?_, ?_, ?_, ?_, ?_, h.nonwrite_wasPending,
        h.nonwrite_le_one, h.write_le_one⟩
      · intro u hu
        rcases List.mem_cons.mp hu with heq | hmem
        · exact List.mem_append_right _ (by simp [heq])
        · exact List.mem_append_left _ (h.timers_pending u hmem)
      · exact List.Nodup.append h.pending_nodup (List.nodup_singleton _)
          (fun a ha hb => by
            simp at hb
            subst hb
            exact hfresh_p ha)
      · exact List.nodup_cons.mpr ⟨hfresh_t, h.timers_nodup⟩
      · exact List.nodup_cons.mpr ⟨hfresh_w, h.writes_nodup⟩
      · intro i hi
        rcases List.mem_append.mp hi with hm | hm
        · exact le_trans (h.pending_le i hm) (Nat.le_succ s.counter)
        · simp at hm
          exact le_of_eq hm
      · intro i hi
        rcases List.mem_cons.mp hi with heq | hm
        · exact le_of_eq heq
        · exact le_trans (h.writes_le i hm) (Nat.le_succ s.counter)
      · intro c hc
        exact le_trans (h.calls_le c hc) (Nat.le_succ s.counter)
      · intro c hc hm
        rcases List.mem_append.mp hm with hmm | hmm
        · exact h.calls_not_pending c hc hmm
        · simp at hmm
          have := h.calls_le c hc
          omega
      · intro c hc hsrc hm
        rcases List.mem_cons.mp hm with heq | hmm
        · have := h.calls_le c hc
          omega
        · exact h.write_calls_not_writes c hc hsrc hmm
    · simp only [stepE, hcon, Bool.false_eq_true, reduceIte]
      exact h
  | timerFire id =>
    simp only [stepE]
    by_cases harm : s.timers.contains id = true
    · simp only [harm, if_true]
      have hmemt : id ∈ s.timers := by simpa using harm
      have hmemp : id ∈ s.pending := h.timers_pending id hmemt
      have hwasp : s.pending.contains id = true := by simpa using hmemp
      refine ⟨?_, h.pending_nodup.erase id, h.timers_nodup.erase id,
        h.writes_nodup, ?_, h.writes_le, ?_, ?_, ?_, ?_, ?_, ?_⟩
      · intro u hu
        obtain ⟨hune, humem⟩ := (h.timers_nodup.mem_erase_iff).mp hu
        exact (List.mem_erase_of_ne hune).mpr (h.timers_pending u humem)
      · intro i hi
        exact h.pending_le i (List.mem_of_mem_erase hi)
      · intro c hc
        rcases List.mem_append.mp hc with hold | hnew
        · exact h.calls_le c hold
        · simp at hnew
          rw [hnew]
          exact h.pending_le id hmemp
      · intro c hc
        rcases List.mem_append.mp hc with hold | hnew
        · intro hm
          exact h.calls_not_pending c hold (List.mem_of_mem_erase hm)
        · simp at hnew
          rw [hnew]
          intro hm
          exact ((h.pending_nodup.mem_erase_iff).mp hm).1 rfl
      · intro c hc hsrc
        rcases List.mem_append.mp hc with hold | hnew
        · exact h.write_calls_not_writes c hold hsrc
        · simp at hnew
          rw [hnew] at hsrc
          exact absurd hsrc (by simp)
      · intro c hc hsrc
        rcases List.mem_append.mp hc with hold | hnew
        · exact h.nonwrite_wasPending c hold hsrc
        · simp at hnew
          simp [hnew, hwasp]
          exact hmemp
      · intro i
        rw [nonWriteCallsFor, List.countP_append]
        by_cases hii : i = id
        · subst hii
          have hz : List.countP
              (fun c => c.id == i && !(c.src == Outcome.writeError))
              s.calls = 0 := by
            refine List.countP_eq_zero.mpr (fun c hc hb => ?_)
            have hcid : c.id = i := by
              have := (Bool.and_eq_true _ _).mp hb
              simpa using this.1
            exact h.calls_not_pending c hc (hcid ▸ hmemp)
          have hsing := countP_singleton_le_one
            (fun c => c.id == i && !(c.src == Outcome.writeError))
            ⟨i, Outcome.timeout, s.pending.contains i⟩
          omega
        · have hone := h.nonwrite_le_one i
          rw [nonWriteCallsFor] at hone
          have hz : List.countP
              (fun c => c.id == i && !(c.src == Outcome.writeError))
              (([⟨id, Outcome.timeout, s.pending.contains id⟩] : List CallRec)) = 0 := by
            refine List.countP_eq_zero.mpr (fun c hc hb => ?_)
            simp at hc
            rw [hc] at hb
            have hand := (Bool.and_eq_true _ _).mp hb
            have hid_eq : id = i := by simpa using hand.1
            exact hii hid_eq.symm
          omega
      · intro i
        rw [writeCallsFor, List.countP_append]
        have hone := h.write_le_one i
        rw [writeCallsFor] at hone
        have hz : List.countP
            (fun c => c.id == i && c.src == Outcome.writeError)
            (([⟨id, Outcome.timeout, s.pending.contains id⟩] : List CallRec)) = 0 := by
          refine List.countP_eq_zero.mpr (fun c hc hb => ?_)
          simp at hc
          rw [hc] at hb
          have hand := (Bool.and_eq_true _ _).mp hb
          have hf : (Outcome.timeout == Outcome.writeError) = false := rfl
          rw [hf] at hand
          exact Bool.false_ne_true hand.2
        omega
    · simp only [harm, Bool.false_eq_true, reduceIte]
      exact h
  | dataChunk bytes =>
    simp only [stepE]
    exact processFold_inv _ _
      (inv_update s h s.connected s.socketGen
        (extractFrames (s.buffer ++ bytes)).1)
  | writeCbOk id =>
    simp only [stepE]
    by_cases hw : s.writes.contains id = true
    · simp only [hw, if_true]
      refine ⟨h.timers_pending, h.pending_nodup, h.timers_nodup,
        h.writes_nodup.erase id, h.pending_le, ?_, h.calls_le,
        h.calls_not_pending, ?_, h.nonwrite_wasPending, h.nonwrite_le_one,
        h.write_le_one⟩
      · intro i hi
        exact h.writes_le i (List.mem_of_mem_erase hi)
      · intro c hc hsrc hm
        exact h.write_calls_not_writes c hc hsrc (List.mem_of_mem_erase hm)
    · simp only [hw, Bool.false_eq_true, reduceIte]
      exact h
  | writeCbErr id =>
    simp only [stepE]
    by_cases hw : s.writes.contains id = true
    · simp only [hw, if_true]
      have hmemw : id ∈ s.writes := by simpa using hw
      refine ⟨?_, h.pending_nodup.erase id, h.timers_nodup.erase id,
        h.writes_nodup.erase id, ?_, ?_, ?_, ?_, ?_, ?_, ?_, ?_⟩
      · intro u hu
        obtain ⟨hune, humem⟩ := (h.timers_nodup.mem_erase_iff).mp hu
        exact (List.mem_erase_of_ne hune).mpr (h.timers_pending u humem)
      · intro i hi
        exact h.pending_le i (List.mem_of_mem_erase hi)
      · intro i hi
        exact h.writes_le i (List.mem_of_mem_erase hi)
      · intro c hc
        rcases List.mem_append.mp hc with hold | hnew
        · exact h.calls_le c hold
        · simp at hnew
          rw [hnew]
          exact h.writes_le id hmemw
      · intro c hc
        rcases List.mem_append.mp hc with hold | hnew
        · intro hm
          exact h.calls_not_pending c hold (List.mem_of_mem_erase hm)
        · simp at hnew
          rw [hnew]
          intro hm
          exact ((h.pending_nodup.mem_erase_iff).mp hm).1 rfl
      · intro c hc hsrc
        rcases List.mem_append.mp hc with hold | hnew
        · intro hm
          exact h.write_calls_not_writes c hold hsrc
            (List.mem_of_mem_erase hm)
        · simp at hnew
          rw [hnew]
          intro hm
          exact ((h.writes_nodup.mem_erase_iff).mp hm).1 rfl
      · intro c hc hsrc
        rcases List.mem_append.mp hc with hold | hnew
        · exact h.nonwrite_wasPending c hold hsrc
        · simp at hnew
          rw [hnew] at hsrc
          exact absurd rfl hsrc
      · intro i
        rw [nonWriteCallsFor, List.countP_append]
        have hone := h.nonwrite_le_one i
        rw [nonWriteCallsFor] at hone
        have hz : List.countP
            (fun c => c.id == i && !(c.src == Outcome.writeError))
            (([⟨id, Outcome.writeError, s.pending.contains id⟩] : List CallRec)) = 0 := by
          refine List.countP_eq_zero.mpr (fun c hc hb => ?_)
          simp at hc
          rw [hc] at hb
          have hand := (Bool.and_eq_true _ _).mp hb
          have hf : (Outcome.writeError == Outcome.writeError) = true := rfl
          rw [hf] at hand
          simp at hand
        omega
      · intro i
        rw [writeCallsFor, List.countP_append]
        by_cases hii : i = id
        · subst hii
          have hz : List.countP
              (fun c => c.id == i && c.src == Outcome.writeError)
              s.calls = 0 := by
            refine List.countP_eq_zero.mpr (fun c hc hb => ?_)
            have hand := (Bool.and_eq_true _ _).mp hb
            have hcid : c.id = i := by simpa using hand.1
            have hcsrc : c.src = Outcome.writeError := by simpa using hand.2
            exact h.write_calls_not_writes c hc hcsrc (hcid ▸ hmemw)
          have hsing := countP_singleton_le_one
            (fun c => c.id == i && c.src == Outcome.writeError)
            ⟨i, Outcome.writeError, s.pending.contains i⟩
          omega
        · have hone := h.write_le_one i
          rw [writeCallsFor] at hone
          have hz : List.countP
              (fun c => c.id == i && c.src == Outcome.writeError)
              (([⟨id, Outcome.writeError, s.pending.contains id⟩] : List CallRec)) = 0 := by
            refine List.countP_eq_zero.mpr (fun c hc hb => ?_)
            simp at hc
            rw [hc] at hb
            have hand := (Bool.and_eq_true _ _).mp hb
            have hid_eq : id = i := by simpa using hand.1
            exact hii hid_eq.symm
          omega
    · simp only [hw, Bool.false_eq_true, reduceIte]
      exact h
  | close =>
    simp only [stepE]
    refine ⟨?_, List.nodup_nil, h.timers_nodup.filter _, h.writes_nodup, ?_,
      h.writes_le, ?_, ?_, ?_, ?_, ?_, ?_⟩
    · intro u hu
      exfalso
      obtain ⟨hmem, hnc⟩ := List.mem_filter.mp hu
      have hup : u ∈ s.pending := h.timers_pending u hmem
      have hcu : s.pending.contains u = true := by simpa using hup
      rw [hcu] at hnc
      simp at hnc
    · intro i hi
      exact absurd hi (List.not_mem_nil i)
    · intro c hc
      rcases List.mem_append.mp hc with hold | hnew
      · exact h.calls_le c hold
      · obtain ⟨j, hj, hje⟩ := List.mem_map.mp hnew
        rw [← hje]
        exact h.pending_le j hj
    · intro c _hc
      exact List.not_mem_nil c.id
    · intro c hc hsrc
      rcases List.mem_append.mp hc with hold | hnew
      · exact h.write_calls_not_writes c hold hsrc
      · obtain ⟨j, hj, hje⟩ := List.mem_map.mp hnew
        rw [← hje] at hsrc
        exact absurd hsrc (by simp)
    · intro c hc hsrc
      rcases List.mem_append.mp hc with hold | hnew
      · exact h.nonwrite_wasPending c hold hsrc
      · obtain ⟨j, hj, hje⟩ := List.mem_map.mp hnew
        rw [← hje]
    · intro i
      rw [nonWriteCallsFor, List.countP_append]
      have hmap : List.countP
          (fun c => c.id == i && !(c.src == Outcome.writeError))
          (s.pending.map
            (fun j => (⟨j, Outcome.connectionClosed, true⟩ : CallRec))) =
          List.countP (fun j => j == i) s.pending := by
        induction s.pending with
        | nil => rfl
        | cons j t ih2 =>
          have hf : (Outcome.connectionClosed == Outcome.writeError) = false :=
            rfl
          simp [List.map_cons, List.countP_cons, ih2, hf]
      by_cases hip : i ∈ s.pending
      · have hz : List.countP
            (fun c => c.id == i && !(c.src == Outcome.writeError))
            s.calls = 0 := by
          refine List.countP_eq_zero.mpr (fun c hc hb => ?_)
          have hcid : c.id = i := by
            have := (Bool.and_eq_true _ _).mp hb
            simpa using this.1
          exact h.calls_not_pending c hc (hcid ▸ hip)
        have hcnt : List.countP (fun j => j == i) s.pending ≤ 1 := by
          rw [show List.countP (fun j => j == i) s.pending =
            List.count i s.pending from (List.count_eq_countP i s.pending).symm]
          exact List.nodup_iff_count_le_one.mp h.pending_nodup i
        omega
      · have hone := h.nonwrite_le_one i
        rw [nonWriteCallsFor] at hone
        have hzc : List.countP (fun j => j == i) s.pending = 0 := by
          refine List.countP_eq_zero.mpr (fun j hj hb => ?_)
          have hji : j = i := by simpa using hb
          exact hip (hji ▸ hj)
        omega
    · intro i
      rw [writeCallsFor, List.countP_append]
      have hone := h.write_le_one i
      rw [writeCallsFor] at hone
      have hz : List.countP (fun c => c.id == i && c.src == Outcome.writeError)
          (s.pending.map
            (fun j => (⟨j, Outcome.connectionClosed, true⟩ : CallRec))) = 0 := by
        refine List.countP_eq_zero.mpr (fun c hc hb => ?_)
        obtain ⟨j, hj, hje⟩ := List.mem_map.mp hc
        rw [← hje] at hb
        have hand := (Bool.and_eq_true _ _).mp hb
        have hf : (Outcome.connectionClosed == Outcome.writeError) = false := rfl
        rw [hf] at hand
        exact Bool.false_ne_true hand.2
      omega

/-- The initial engine state satisfies the invariant. -/
theorem init_inv : EngineInv initState := by
  refine ⟨?_, ?_, ?_, ?_, ?_, ?_, ?_, ?_, ?_, ?_, ?_, ?_⟩ <;>
    simp [initState, nonWriteCallsFor, writeCallsFor]

/-- Every state reachable from the initial state by a trace of events
satisfies the invariant. -/
theorem runE_inv (tr : List Event) : EngineInv (runE initState tr) := by
  suffices hgen : ∀ s, EngineInv s → EngineInv (runE s tr) from
    hgen initState init_inv
  induction tr with
  | nil => intro s h; exact h
  | cons e tr ih =>
    intro s h
    exact ih (stepE s e) (stepE_inv s e h)

/-- Filtering the connection-close settle calls by id mirrors filtering
the pending ids. -/
theorem filter_closeMap (l : List Nat) (i : Nat) :
    (l.map (fun j => (⟨j, Outcome.connectionClosed, true⟩ : CallRec))).filter
      (fun c => c.id == i) =
    (l.filter (fun j => j == i)).map
      (fun j => (⟨j, Outcome.connectionClosed, true⟩ : CallRec)) := by
  induction l with
  | nil => rfl
  | cons j t ih =>
    by_cases hji : (j == i) = true <;> simp [List.filter_cons, hji, ih]

/-- In a duplicate-free list, filtering for a member id keeps exactly that
id. -/
theorem nodup_filter_eq_singleton (l : List Nat) (i : Nat) (hn : l.Nodup)
    (hi : i ∈ l) : l.filter (fun j => j == i) = [i] := by
  induction l with
  | nil => simp at hi
  | cons j t ih =>
    obtain ⟨hjt, htn⟩ := List.nodup_cons.mp hn
    rcases List.mem_cons.mp hi with heq | hmem
    · subst heq
      have hz : t.filter (fun x => x == i) = [] := by
        refine List.filter_eq_nil_iff.mpr (fun x hx hb => ?_)
        have hxj : x = i := by simpa using hb
        exact hjt (hxj ▸ hx)
      simp [List.filter_cons, hz]
    · have hji : (j == i) = false := by
        by_cases hq : j = i
        · subst hq
          exact absurd hmem hjt
        · simpa using hq
      simp [List.filter_cons, hji, ih htn hmem]

/-! ## Claim C6 -/

/-- Claim C6 counterexample: in the trace where request 1's timeout fires
and then its `socket.write` callback reports an error, the caller's
promise receives two reject calls — the second one made when the entry
had already been removed from the pending map.  The claim's "never more
than one [call]; no path resolves or rejects an already-removed entry" is
therefore false of the code. -/
theorem single_resolution_cex :
    (runE initState raceTrace).calls =
      [⟨1, Outcome.timeout, true⟩, ⟨1, Outcome.writeError, false⟩] ∧
    callsFor (runE initState raceTrace).calls 1 = 2 ∧
    (⟨1, Outcome.writeError, false⟩ : CallRec) ∈
      (runE initState raceTrace).calls ∧
    (⟨1, Outcome.writeError, false⟩ : CallRec).wasPending = false :=
  ⟨by decide, by decide, by decide, rfl⟩

/-- Claim C6 amended: along every event trace, each request receives at
most one settle call from the timeout, response and connection-close
paths — each made while the entry was still pending — and at most one
from the `socket.write` error callback; only the write-error callback can
reject an already-removed entry, and since a promise delivers only its
first settlement the caller observes at most one resolution. -/
theorem single_resolution_amended (tr : List Event) (i : Nat) :
    nonWriteCallsFor (runE initState tr).calls i ≤ 1 ∧
    writeCallsFor (runE initState tr).calls i ≤ 1 ∧
    ∀ c ∈ (runE initState tr).calls, c.src ≠ Outcome.writeError →
      c.wasPending = true :=
  ⟨(runE_inv tr).nonwrite_le_one i, (runE_inv tr).write_le_one i,
    (runE_inv tr).nonwrite_wasPending⟩

/-- Witness for the amended C6 on the concrete race trace. -/
theorem single_resolution_amended_witness :
    nonWriteCallsFor (runE initState raceTrace).calls 1 ≤ 1 ∧
    writeCallsFor (runE initState raceTrace).calls 1 ≤ 1 ∧
    (⟨1, Outcome.timeout, true⟩ : CallRec) ∈ (runE initState raceTrace).calls ∧
    (⟨1, Outcome.timeout, true⟩ : CallRec).wasPending = true :=
  ⟨(single_resolution_amended raceTrace 1).1,
   (single_resolution_amended raceTrace 1).2.1,
   by decide,
   (single_resolution_amended raceTrace 1).2.2 ⟨1, Outcome.timeout, true⟩
     (by decide) (by decide)⟩

/-! ## Claim C7 -/

/-- Claim C7: whenever the transport closes, every still-pending request
is rejected with a connection-closed error, the pending set is emptied,
the inbound buffer is reset and the connection is marked not-connected;
each formerly pending request had no prior settle call, so its
connection-closed rejection is delivered — no promise is left
unresolved. -/
theorem close_aborts_all (tr : List Event) :
    (stepE (runE initState tr) Event.close).connected = false ∧
    (stepE (runE initState tr) Event.close).buffer = [] ∧
    (stepE (runE initState tr) Event.close).pending = [] ∧
    (stepE (runE initState tr) Event.close).calls =
      (runE initState tr).calls ++
        (runE initState tr).pending.map
          (fun i => ⟨i, Outcome.connectionClosed, true⟩) ∧
    ∀ i ∈ (runE initState tr).pending,
      callsFor (runE initState tr).calls i = 0 ∧
      (stepE (runE initState tr) Event.close).calls.filter
        (fun c => c.id == i) = [⟨i, Outcome.connectionClosed, true⟩] := by
  have hinv := runE_inv tr
  refine ⟨rfl, rfl, rfl, rfl, ?_⟩
  intro i hi
  have hz : ∀ c ∈ (runE initState tr).calls, ¬((c.id == i) = true) := by
    intro c hc hb
    have hcid : c.id = i := by simpa using hb
    exact hinv.calls_not_pending c hc (hcid ▸ hi)
  constructor
  · exact List.countP_eq_zero.mpr hz
  · have hstep : (stepE (runE initState tr) Event.close).calls =
        (runE initState tr).calls ++
          (runE initState tr).pending.map
            (fun j => ⟨j, Outcome.connectionClosed, true⟩) := rfl
    rw [hstep, List.filter_append, List.filter_eq_nil_iff.mpr hz,
      List.nil_append, filter_closeMap,
      nodup_filter_eq_singleton _ i hinv.pending_nodup hi]
    rfl

/-- Witness for C7: closing with requests 1 and 2 outstanding. -/
theorem close_aborts_all_witness :
    1 ∈ (runE initState
      [Event.connectOk, Event.sendReq, Event.sendReq]).pending ∧
    (stepE (runE initState [Event.connectOk, Event.sendReq, Event.sendReq])
      Event.close).connected = false ∧
    (stepE (runE initState [Event.connectOk, Event.sendReq, Event.sendReq])
      Event.close).pending = [] ∧
    callsFor (runE initState
      [Event.connectOk, Event.sendReq, Event.sendReq]).calls 1 = 0 ∧
    (stepE (runE initState [Event.connectOk, Event.sendReq, Event.sendReq])
      Event.close).calls.filter (fun c => c.id == 1) =
      [⟨1, Outcome.connectionClosed, true⟩] :=
  ⟨by decide,
   (close_aborts_all [Event.connectOk, Event.sendReq, Event.sendReq]).1,
   (close_aborts_all [Event.connectOk, Event.sendReq, Event.sendReq]).2.2.1,
   ((close_aborts_all [Event.connectOk, Event.sendReq, Event.sendReq]).2.2.2.2
     1 (by decide)).1,
   ((close_aborts_all [Event.connectOk, Event.sendReq, Event.sendReq]).2.2.2.2
     1 (by decide)).2⟩
